import Mathlib

open Matrix

/-- A single priority level of the lexicographic problem: the energy
0.5 xᵀ H x + xᵀ f, matching the inputs H[i], f[i] of NullSpaceMethod. -/
structure Objective (n : ℕ) where
  H : Matrix (Fin n) (Fin n) ℚ
  f : Fin n → ℚ

/-- Box bounds: a pair (lower, upper) of n-vectors. -/
abbrev Bounds (n : ℕ) := (Fin n → ℚ) × (Fin n → ℚ)

/-- Result of one call to affine_null_space: the matrix Ni (m × mcols) and the
particular solution Y (length m). -/
structure ANSResult (m : ℕ) where
  mcols : ℕ
  Ni : Matrix (Fin m) (Fin mcols) ℚ
  Y : Fin m → ℚ

/-- The external collaborator affine_null_space(H, rhs, method, bounds), treated
as a black box: for each reduced dimension m it consumes the reduced quadratic
form, the right-hand side, the method string and the current bounds. -/
def Oracle (n : ℕ) : Type :=
  (m : ℕ) → Matrix (Fin m) (Fin m) ℚ → (Fin m → ℚ) → String → Option (Bounds n) →
    ANSResult m

/-- Loop state of NullSpaceMethod: current basis N (n × m), feasible point Z,
current bounds, and whether the loop was exited early (the break). -/
structure SolverState (n : ℕ) where
  m : ℕ
  N : Matrix (Fin n) (Fin m) ℚ
  Z : Fin n → ℚ
  bounds : Option (Bounds n)
  halted : Bool

/-- Initialization (lines 54-57 of lexmin.py): N = identity(n),
Z = zeros(f[0].shape), bounds as given, loop not yet exited. -/
def initState (n : ℕ) (b₀ : Option (Bounds n)) : SolverState n :=
  ⟨n, 1, 0, b₀, false⟩

/-- The bounds update (lines 87-90 of lexmin.py), performed only when bounds is
not None: val = N.dot(zeros(N.shape[1])); bounds = (-val, 1 - val), where N is
the already-narrowed basis. -/
def nextBounds {n p : ℕ} (old : Option (Bounds n)) (N2 : Matrix (Fin n) (Fin p) ℚ) :
    Option (Bounds n) :=
  match old with
  | none => none
  | some _ =>
      some (-(N2 *ᵥ (0 : Fin p → ℚ)), fun i => 1 - (N2 *ᵥ (0 : Fin p → ℚ)) i)

/-- One iteration of the loop body of NullSpaceMethod (lines 58-90): restrict
the coefficients to the running affine subspace, call affine_null_space with
the restricted data, accumulate Z, exit early if Ni has no columns, otherwise
compose N with Ni and refresh the bounds. -/
def step {n : ℕ} (oracle : Oracle n) (method : String) (st : SolverState n)
    (obj : Objective n) : SolverState n :=
  if st.halted then st
  else
    let fi : Fin st.m → ℚ := st.N.transpose *ᵥ (obj.H *ᵥ st.Z + obj.f)
    let Hi : Matrix (Fin st.m) (Fin st.m) ℚ := st.N.transpose * obj.H * st.N
    let r : ANSResult st.m := oracle st.m Hi (-fi) method st.bounds
    if r.mcols = 0 then ⟨st.m, st.N, st.N *ᵥ r.Y + st.Z, st.bounds, true⟩
    else
      ⟨r.mcols, st.N * r.Ni, st.N *ᵥ r.Y + st.Z,
        nextBounds st.bounds (st.N * r.Ni), false⟩

/-- Folding the loop body over the objective list from a given state. -/
def runFrom {n : ℕ} (oracle : Oracle n) (method : String) (st : SolverState n)
    (objs : List (Objective n)) : SolverState n :=
  objs.foldl (step oracle method) st

/-- The whole solver: run the loop from the initial state and return Z. -/
def NullSpaceMethod {n : ℕ} (oracle : Oracle n) (objs : List (Objective n))
    (method : String) (b₀ : Option (Bounds n)) : Fin n → ℚ :=
  (runFrom oracle method (initState n b₀) objs).Z

/-- The arguments handed to affine_null_space in one iteration (line 72):
the restricted quadratic form, minus the restricted linear coefficients, the
method string and the current bounds. -/
def callANS {n : ℕ} (oracle : Oracle n) (method : String) (st : SolverState n)
    (obj : Objective n) : ANSResult st.m :=
  oracle st.m (st.N.transpose * obj.H * st.N)
    (-(st.N.transpose *ᵥ (obj.H *ᵥ st.Z + obj.f))) method st.bounds

/-- The state update applied to one affine_null_space result. -/
def applyANS {n : ℕ} (st : SolverState n) (r : ANSResult st.m) : SolverState n :=
  if r.mcols = 0 then ⟨st.m, st.N, st.N *ᵥ r.Y + st.Z, st.bounds, true⟩
  else
    ⟨r.mcols, st.N * r.Ni, st.N *ᵥ r.Y + st.Z,
      nextBounds st.bounds (st.N * r.Ni), false⟩

/-- The loop state just before level j is processed. -/
def stateAt {n : ℕ} (oracle : Oracle n) (method : String) (objs : List (Objective n))
    (b₀ : Option (Bounds n)) (j : ℕ) : SolverState n :=
  runFrom oracle method (initState n b₀) (objs.take j)

/-- The collaborator contract at one call: the returned Ni is annihilated by
the reduced quadratic form (its columns lie in the kernel), and the returned Y
solves the reduced linear problem exactly. -/
abbrev ContractAt {n : ℕ} (oracle : Oracle n) (method : String) (st : SolverState n)
    (obj : Objective n) : Prop :=
  (st.N.transpose * obj.H * st.N) * (callANS oracle method st obj).Ni = 0 ∧
  (st.N.transpose * obj.H * st.N) *ᵥ (callANS oracle method st obj).Y =
    -(st.N.transpose *ᵥ (obj.H *ᵥ st.Z + obj.f))

/-- Invariant carried for an already-processed level with reduced gradient data
(A, c): the property A ∙ Z + c = 0 holds now and is kept by all later
iterations because A annihilates the current basis. -/
def GradFixed {n p : ℕ} (A : Matrix (Fin p) (Fin n) ℚ) (c : Fin p → ℚ)
    (st : SolverState n) : Prop :=
  A *ᵥ st.Z + c = 0 ∧ (st.halted = false → A * st.N = 0)

/-- The dimension validation of NullSpaceMethod (lines 44-50 of lexmin.py), on
the shape data alone: asserts k > 0, k == len(f), H[0] square, f[0] matching
H[0]. true means the asserts pass; false means an assertion error is raised. -/
def checkDims (Hshapes : List (ℕ × ℕ)) (fshapes : List ℕ) : Bool :=
  match Hshapes, fshapes with
  | h0 :: _, f0 :: _ =>
      Hshapes.length == fshapes.length && h0.1 == h0.2 && h0.1 == f0
  | _, _ => false

/-- A concrete collaborator: full identity kernel matrix and zero solution. -/
def o0 (n : ℕ) : Oracle n := fun m _ _ _ _ => ⟨m, 1, 0⟩

/-- A concrete collaborator whose Ni always has zero columns. -/
def oHalt (n : ℕ) : Oracle n := fun _ _ _ _ _ => ⟨0, 0, 0⟩

/-- A concrete collaborator returning the particular solution 5. -/
def o5 : Oracle 1 := fun m _ _ _ _ => ⟨m, 1, fun _ => 5⟩

/-- The objective with zero quadratic form and zero linear term, n = 1. -/
def zobj1 : Objective 1 := ⟨0, 0⟩

/-- The objective with zero quadratic form and zero linear term, n = 2. -/
def zobj2 : Objective 2 := ⟨0, 0⟩

/-- A rank-one objective on two variables: H = diag(1, 0), f = (-1, 0). -/
def aobj : Objective 2 := ⟨!![(1 : ℚ), 0; 0, 0], ![-1, 0]⟩

/-- Concrete caller bounds for n = 1. -/
def pex : Bounds 1 := (fun _ => 5, fun _ => 6)

/-- Concrete caller bounds for n = 2, different from (0, 1). -/
def bex : Option (Bounds 2) := some (fun _ => 5, fun _ => 6)

/-- The single kernel column (0, 1) of aobj's quadratic form. -/
def niCol : Matrix (Fin 2) (Fin 1) ℚ := !![0; 1]

/-- A concrete collaborator that satisfies the contract on every call made in
the runs below, returns the zero solution and full kernel on the zero problem,
and picks the free coordinate of its particular solution from the lower bound
when bounds are present. -/
def ocex : Oracle 2 := fun m Hm _ _ bnd =>
  match m, Hm with
  | 2, Hm =>
      if Hm = 0 then ⟨2, 1, 0⟩
      else ⟨1, niCol, ![1, match bnd with | none => 0 | some p => p.1 1]⟩
  | q, _ => ⟨q, 1, 0⟩

/-- The loop state after ocex processes the zero objective from caller bounds
bex: nothing moved, but the bounds were rewritten to (0, 1). -/
def st1ex : SolverState 2 :=
  ⟨2, 1, 0, some ((0 : Fin 2 → ℚ), (1 : Fin 2 → ℚ)), false⟩

lemma step_halted {n : ℕ} (oracle : Oracle n) (method : String) (st : SolverState n)
    (obj : Objective n) (h : st.halted = true) : step oracle method st obj = st := by
  simp [step, h]

lemma runFrom_cons {n : ℕ} (oracle : Oracle n) (method : String) (st : SolverState n)
    (a : Objective n) (l : List (Objective n)) :
    runFrom oracle method st (a :: l) = runFrom oracle method (step oracle method st a) l :=
  rfl

lemma runFrom_append {n : ℕ} (oracle : Oracle n) (method : String) (st : SolverState n)
    (l₁ l₂ : List (Objective n)) :
    runFrom oracle method st (l₁ ++ l₂) =
      runFrom oracle method (runFrom oracle method st l₁) l₂ := by
  simp [runFrom]

lemma runFrom_halted {n : ℕ} (oracle : Oracle n) (method : String) (st : SolverState n)
    (h : st.halted = true) (l : List (Objective n)) : runFrom oracle method st l = st := by
  induction l with
  | nil => rfl
  | cons a l ih => rw [runFrom_cons, step_halted oracle method st a h]; exact ih

lemma step_eq_applyANS {n : ℕ} (oracle : Oracle n) (method : String) (st : SolverState n)
    (obj : Objective n) (h : st.halted = false) :
    step oracle method st obj = applyANS st (callANS oracle method st obj) := by
  simp [step, applyANS, callANS, h]

lemma applyANS_zero {n : ℕ} (st : SolverState n) (r : ANSResult st.m) (h : r.mcols = 0) :
    applyANS st r = ⟨st.m, st.N, st.N *ᵥ r.Y + st.Z, st.bounds, true⟩ := by
  simp [applyANS, h]

lemma applyANS_pos {n : ℕ} (st : SolverState n) (r : ANSResult st.m) (h : r.mcols ≠ 0) :
    applyANS st r =
      ⟨r.mcols, st.N * r.Ni, st.N *ᵥ r.Y + st.Z,
        nextBounds st.bounds (st.N * r.Ni), false⟩ := by
  simp [applyANS, h]

lemma nextBounds_none {n p : ℕ} (N2 : Matrix (Fin n) (Fin p) ℚ) :
    nextBounds none N2 = none := rfl

lemma nextBounds_some {n p : ℕ} (b : Bounds n) (N2 : Matrix (Fin n) (Fin p) ℚ) :
    nextBounds (some b) N2 = some (0, 1) := by
  show some (-(N2 *ᵥ (0 : Fin p → ℚ)), fun i => 1 - (N2 *ᵥ (0 : Fin p → ℚ)) i) = some (0, 1)
  rw [Matrix.mulVec_zero]
  simp
  rfl

lemma step_m_pos {n : ℕ} (oracle : Oracle n) (method : String) (st : SolverState n)
    (obj : Objective n) (h : st.halted = false → 0 < st.m) :
    (step oracle method st obj).halted = false → 0 < (step oracle method st obj).m := by
  cases hh : st.halted with
  | true => rw [step_halted oracle method st obj hh]; exact h
  | false =>
    rw [step_eq_applyANS oracle method st obj hh]
    by_cases hm : (callANS oracle method st obj).mcols = 0
    · rw [applyANS_zero _ _ hm]; intro hf; simp at hf
    · rw [applyANS_pos _ _ hm]; intro _; exact Nat.pos_of_ne_zero hm

lemma runFrom_m_pos {n : ℕ} (oracle : Oracle n) (method : String) (l : List (Objective n)) :
    ∀ st : SolverState n, (st.halted = false → 0 < st.m) →
      ((runFrom oracle method st l).halted = false → 0 < (runFrom oracle method st l).m) := by
  induction l with
  | nil => intro st h; exact h
  | cons a l ih =>
    intro st h
    rw [runFrom_cons]
    exact ih _ (step_m_pos oracle method st a h)

lemma step_bounds_none {n : ℕ} (oracle : Oracle n) (method : String) (st : SolverState n)
    (obj : Objective n) (h : st.bounds = none) :
    (step oracle method st obj).bounds = none := by
  cases hh : st.halted with
  | true => rw [step_halted oracle method st obj hh]; exact h
  | false =>
    rw [step_eq_applyANS oracle method st obj hh]
    by_cases hm : (callANS oracle method st obj).mcols = 0
    · rw [applyANS_zero _ _ hm]; exact h
    · rw [applyANS_pos _ _ hm]
      show nextBounds st.bounds _ = none
      rw [h]
      rfl

lemma runFrom_bounds_none {n : ℕ} (oracle : Oracle n) (method : String)
    (l : List (Objective n)) :
    ∀ st : SolverState n, st.bounds = none → (runFrom oracle method st l).bounds = none := by
  induction l with
  | nil => intro st h; exact h
  | cons a l ih =>
    intro st h
    rw [runFrom_cons]
    exact ih _ (step_bounds_none oracle method st a h)

lemma gradFixed_step {n p : ℕ} (A : Matrix (Fin p) (Fin n) ℚ) (c : Fin p → ℚ)
    (oracle : Oracle n) (method : String) (st : SolverState n) (obj : Objective n)
    (h : GradFixed A c st) : GradFixed A c (step oracle method st obj) := by
  cases hh : st.halted with
  | true => rw [step_halted oracle method st obj hh]; exact h
  | false =>
    rw [step_eq_applyANS oracle method st obj hh]
    have hAN : A * st.N = 0 := h.2 hh
    have hz : A *ᵥ (st.N *ᵥ (callANS oracle method st obj).Y + st.Z) + c = 0 := by
      rw [Matrix.mulVec_add, Matrix.mulVec_mulVec, hAN, Matrix.zero_mulVec, zero_add]
      exact h.1
    by_cases hm : (callANS oracle method st obj).mcols = 0
    · rw [applyANS_zero _ _ hm]
      exact ⟨hz, fun hf => by simp at hf⟩
    · rw [applyANS_pos _ _ hm]
      refine ⟨hz, fun _ => ?_⟩
      show A * (st.N * (callANS oracle method st obj).Ni) = 0
      rw [← Matrix.mul_assoc, hAN, Matrix.zero_mul]

lemma gradFixed_runFrom {n p : ℕ} (A : Matrix (Fin p) (Fin n) ℚ) (c : Fin p → ℚ)
    (oracle : Oracle n) (method : String) (l : List (Objective n)) :
    ∀ st : SolverState n, GradFixed A c st → GradFixed A c (runFrom oracle method st l) := by
  induction l with
  | nil => intro st h; exact h
  | cons a l ih =>
    intro st h
    rw [runFrom_cons]
    exact ih _ (gradFixed_step A c oracle method st a h)

lemma gradFixed_establish {n : ℕ} (oracle : Oracle n) (method : String)
    (st : SolverState n) (obj : Objective n) (h0 : st.halted = false)
    (hC : ContractAt oracle method st obj) :
    GradFixed (st.N.transpose * obj.H) (st.N.transpose *ᵥ obj.f)
      (step oracle method st obj) := by
  rw [step_eq_applyANS oracle method st obj h0]
  have hz : (st.N.transpose * obj.H) *ᵥ (st.N *ᵥ (callANS oracle method st obj).Y + st.Z)
      + st.N.transpose *ᵥ obj.f = 0 := by
    rw [Matrix.mulVec_add, Matrix.mulVec_mulVec, hC.2, Matrix.mulVec_add,
      ← Matrix.mulVec_mulVec]
    abel
  by_cases hm : (callANS oracle method st obj).mcols = 0
  · rw [applyANS_zero _ _ hm]
    exact ⟨hz, fun hf => by simp at hf⟩
  · rw [applyANS_pos _ _ hm]
    refine ⟨hz, fun _ => ?_⟩
    show (st.N.transpose * obj.H) * (st.N * (callANS oracle method st obj).Ni) = 0
    rw [← Matrix.mul_assoc]
    exact hC.1

lemma runFrom_split {n : ℕ} (oracle : Oracle n) (method : String)
    (objs : List (Objective n)) (i : ℕ) (hi : i < objs.length) (st0 : SolverState n) :
    runFrom oracle method st0 objs =
      runFrom oracle method
        (step oracle method (runFrom oracle method st0 (objs.take i)) objs[i])
        (objs.drop (i + 1)) := by
  conv_lhs => rw [← List.take_append_drop i objs]
  rw [runFrom_append, List.drop_eq_getElem_cons hi, runFrom_cons]

lemma li_one_col : LinearIndependent ℚ
    (fun j : Fin 1 => fun i : Fin 1 => (1 : Matrix (Fin 1) (Fin 1) ℚ) i j) := by
  apply (linearIndependent_unique_iff _).mpr
  intro hcontra
  have h00 := congrFun hcontra 0
  simp [Matrix.one_apply] at h00

lemma aobjH_ne_zero : aobj.H ≠ 0 := by
  intro h
  have h00 := congrFun (congrFun h 0) 0
  simp [aobj] at h00

lemma aobjH_mul_niCol : aobj.H * niCol = 0 := by
  ext i j
  rw [Matrix.mul_apply]
  fin_cases i <;> fin_cases j <;> simp [aobj, niCol, Fin.sum_univ_two]

lemma ocex_zero (rhs : Fin 2 → ℚ) (bnd : Option (Bounds 2)) :
    ocex 2 0 rhs "qr" bnd = ⟨2, 1, 0⟩ := rfl

lemma ocex_aobj (rhs : Fin 2 → ℚ) (p : Bounds 2) :
    ocex 2 aobj.H rhs "qr" (some p) = ⟨1, niCol, ![1, p.1 1]⟩ := rfl

lemma ev_call_zobj2 :
    callANS ocex "qr" (initState 2 bex) zobj2 = (⟨2, 1, 0⟩ : ANSResult 2) := by
  have hH : (initState 2 bex).N.transpose * zobj2.H * (initState 2 bex).N = 0 := by
    simp [zobj2, Matrix.mul_zero, Matrix.zero_mul]
  unfold callANS
  rw [hH]
  exact ocex_zero _ _

lemma ev_step_zobj2 : step ocex "qr" (initState 2 bex) zobj2 = st1ex := by
  rw [step_eq_applyANS _ _ _ _ rfl, ev_call_zobj2, applyANS_pos _ _ (by decide)]
  simp only [st1ex, initState, bex, nextBounds_some, Matrix.one_mul,
    Matrix.mulVec_zero, zero_add, add_zero]

lemma ev_call_aobj_init :
    callANS ocex "qr" (initState 2 bex) aobj = (⟨1, niCol, ![1, 5]⟩ : ANSResult 2) := by
  have hH : (initState 2 bex).N.transpose * aobj.H * (initState 2 bex).N = aobj.H := by
    simp [initState, Matrix.transpose_one, Matrix.one_mul, Matrix.mul_one]
  unfold callANS
  rw [hH]
  exact ocex_aobj _ (fun _ => 5, fun _ => 6)

lemma ev_call_aobj_st1 :
    callANS ocex "qr" st1ex aobj = (⟨1, niCol, ![1, 0]⟩ : ANSResult 2) := by
  have hH : st1ex.N.transpose * aobj.H * st1ex.N = aobj.H := by
    simp [st1ex, Matrix.transpose_one, Matrix.one_mul, Matrix.mul_one]
  unfold callANS
  rw [hH]
  exact ocex_aobj _ ((0 : Fin 2 → ℚ), (1 : Fin 2 → ℚ))

lemma ev_state1 : stateAt ocex "qr" [zobj2, aobj] bex 1 = st1ex := by
  show runFrom ocex "qr" (initState 2 bex) ([zobj2, aobj].take 1) = st1ex
  rw [show ([zobj2, aobj].take 1) = [zobj2] from rfl, runFrom_cons]
  exact ev_step_zobj2

lemma ev_runA : NullSpaceMethod ocex [aobj] "qr" bex = ![(1 : ℚ), 5] := by
  unfold NullSpaceMethod
  rw [runFrom_cons]
  show (step ocex "qr" (initState 2 bex) aobj).Z = _
  rw [step_eq_applyANS _ _ _ _ rfl, ev_call_aobj_init, applyANS_pos _ _ (by decide)]
  show (1 : Matrix (Fin 2) (Fin 2) ℚ) *ᵥ ![1, 5] + 0 = ![(1 : ℚ), 5]
  rw [Matrix.one_mulVec, add_zero]

lemma ev_runB : NullSpaceMethod ocex [zobj2, aobj] "qr" bex = ![(1 : ℚ), 0] := by
  unfold NullSpaceMethod
  rw [runFrom_cons, ev_step_zobj2, runFrom_cons]
  show (step ocex "qr" st1ex aobj).Z = _
  rw [step_eq_applyANS _ _ _ _ rfl, ev_call_aobj_st1, applyANS_pos _ _ (by decide)]
  show (1 : Matrix (Fin 2) (Fin 2) ℚ) *ᵥ ![1, 0] + 0 = ![(1 : ℚ), 0]
  rw [Matrix.one_mulVec, add_zero]

lemma contract_init_zobj2 : ContractAt ocex "qr" (initState 2 bex) zobj2 := by
  have hH : (initState 2 bex).N.transpose * zobj2.H * (initState 2 bex).N = 0 := by
    simp [zobj2, Matrix.mul_zero, Matrix.zero_mul]
  refine ⟨?_, ?_⟩
  · rw [hH, Matrix.zero_mul]
  · rw [hH, Matrix.zero_mulVec]
    simp [zobj2, Matrix.zero_mulVec, Matrix.mulVec_zero]

lemma contract_init_aobj : ContractAt ocex "qr" (initState 2 bex) aobj := by
  have hH : (initState 2 bex).N.transpose * aobj.H * (initState 2 bex).N = aobj.H := by
    simp [initState, Matrix.transpose_one, Matrix.one_mul, Matrix.mul_one]
  refine ⟨?_, ?_⟩
  · rw [hH, ev_call_aobj_init]
    exact aobjH_mul_niCol
  · rw [hH, ev_call_aobj_init]
    show aobj.H *ᵥ ![1, 5]
      = -((1 : Matrix (Fin 2) (Fin 2) ℚ).transpose *ᵥ (aobj.H *ᵥ 0 + aobj.f))
    rw [Matrix.mulVec_zero, zero_add, Matrix.transpose_one, Matrix.one_mulVec]
    ext i
    fin_cases i <;>
      simp [aobj, Matrix.mulVec, Matrix.dotProduct, Fin.sum_univ_two]

lemma contract_st1_aobj : ContractAt ocex "qr" st1ex aobj := by
  have hH : st1ex.N.transpose * aobj.H * st1ex.N = aobj.H := by
    simp [st1ex, Matrix.transpose_one, Matrix.one_mul, Matrix.mul_one]
  refine ⟨?_, ?_⟩
  · rw [hH, ev_call_aobj_st1]
    exact aobjH_mul_niCol
  · rw [hH, ev_call_aobj_st1]
    show aobj.H *ᵥ ![1, 0]
      = -((1 : Matrix (Fin 2) (Fin 2) ℚ).transpose *ᵥ (aobj.H *ᵥ 0 + aobj.f))
    rw [Matrix.mulVec_zero, zero_add, Matrix.transpose_one, Matrix.one_mulVec]
    ext i
    fin_cases i <;>
      simp [aobj, Matrix.mulVec, Matrix.dotProduct, Fin.sum_univ_two]

lemma contract_o0_zobj1 : ContractAt (o0 1) "qr" (initState 1 none) zobj1 := by
  have hH : (initState 1 none).N.transpose * zobj1.H * (initState 1 none).N = 0 := by
    simp [zobj1, Matrix.mul_zero, Matrix.zero_mul]
  refine ⟨?_, ?_⟩
  · rw [hH, Matrix.zero_mul]
  · rw [hH, Matrix.zero_mulVec]
    simp [zobj1, Matrix.zero_mulVec, Matrix.mulVec_zero]

lemma step_zero_obj {n : ℕ} (oracle : Oracle n) (method : String) (st : SolverState n)
    (hz : ∀ m : ℕ, oracle m 0 0 method none = ⟨m, 1, 0⟩)
    (h0 : st.halted = false) (hb : st.bounds = none) (hm : 0 < st.m) :
    step oracle method st (⟨0, 0⟩ : Objective n) = st := by
  obtain ⟨m, N, Z, bnd, hl⟩ := st
  have hl' : hl = false := h0
  have hbnd : bnd = none := hb
  have hm' : 0 < m := hm
  subst hl'
  subst hbnd
  rw [step_eq_applyANS _ _ _ _ rfl]
  have hca : callANS oracle method ⟨m, N, Z, none, false⟩ (⟨0, 0⟩ : Objective n)
      = (⟨m, 1, 0⟩ : ANSResult m) := by
    show oracle m (N.transpose * (0 : Matrix (Fin n) (Fin n) ℚ) * N)
        (-(N.transpose *ᵥ ((0 : Matrix (Fin n) (Fin n) ℚ) *ᵥ Z + (0 : Fin n → ℚ))))
        method none = (⟨m, 1, 0⟩ : ANSResult m)
    rw [Matrix.mul_zero, Matrix.zero_mul, Matrix.zero_mulVec, zero_add,
      Matrix.mulVec_zero, neg_zero]
    exact hz m
  rw [hca, applyANS_pos _ _ (Nat.pos_iff_ne_zero.mp hm')]
  rw [Matrix.mul_one, Matrix.mulVec_zero, zero_add, nextBounds_none]

/-- Claim C1 (amended): at every iteration that actually runs, the reduced
coefficients are computed exactly as f' = Nᵀ (H Z + f) and H' = Nᵀ H N, and
affine_null_space is invoked with (H', -f', method, current bounds) — the
bounds currently in effect, which coincide with the caller's only until the
first bounds update. -/
theorem claim1_reduced_invocation {n : ℕ} (oracle : Oracle n) (method : String)
    (st : SolverState n) (obj : Objective n) (h : st.halted = false) :
    step oracle method st obj =
      applyANS st
        (oracle st.m (st.N.transpose * obj.H * st.N)
          (-(st.N.transpose *ᵥ (obj.H *ᵥ st.Z + obj.f))) method st.bounds) :=
  step_eq_applyANS oracle method st obj h

theorem claim1_reduced_invocation_w :
    step (o0 1) "qr" (initState 1 none) zobj1 =
      applyANS (initState 1 none)
        ((o0 1) (initState 1 none).m
          ((initState 1 none).N.transpose * zobj1.H * (initState 1 none).N)
          (-((initState 1 none).N.transpose *ᵥ
              (zobj1.H *ᵥ (initState 1 none).Z + zobj1.f)))
          "qr" (initState 1 none).bounds) :=
  claim1_reduced_invocation (o0 1) "qr" (initState 1 none) zobj1 rfl

/-- Claim C1 counterexample: in a concrete run with caller bounds (5, 6), the
second level still runs (not halted) but the bounds in effect at its call are
no longer the caller's, so the routine is not invoked with the caller's bounds
at every iteration. -/
theorem claim1_caller_bounds_cex :
    (stateAt ocex "qr" [zobj2, aobj] bex 1).halted = false ∧
    (stateAt ocex "qr" [zobj2, aobj] bex 1).bounds ≠ bex := by
  rw [ev_state1]
  refine ⟨rfl, ?_⟩
  show some ((0 : Fin 2 → ℚ), (1 : Fin 2 → ℚ))
    ≠ some ((fun _ => (5 : ℚ)), fun _ => (6 : ℚ))
  intro h
  have h1 := congrFun (congrArg Prod.fst (Option.some.inj h)) 0
  norm_num at h1

/-- Claim C2: N starts as the n × n identity and Z as the zero vector, and each
iteration that runs updates Z to N·Y + Z (lifting the reduced solution Y
through the current N before adding) and then, when Ni has columns, narrows
the basis to N·Ni. -/
theorem claim2_state_updates {n : ℕ} (oracle : Oracle n) (method : String)
    (b₀ : Option (Bounds n)) :
    (initState n b₀).N = (1 : Matrix (Fin n) (Fin n) ℚ) ∧
    (initState n b₀).Z = (0 : Fin n → ℚ) ∧
    (∀ (st : SolverState n) (obj : Objective n), st.halted = false →
      (step oracle method st obj).Z
          = st.N *ᵥ (callANS oracle method st obj).Y + st.Z ∧
      ((callANS oracle method st obj).mcols ≠ 0 →
        (⟨(step oracle method st obj).m, (step oracle method st obj).N⟩ :
            Σ p : ℕ, Matrix (Fin n) (Fin p) ℚ) =
          ⟨(callANS oracle method st obj).mcols,
            st.N * (callANS oracle method st obj).Ni⟩)) := by
  refine ⟨rfl, rfl, fun st obj h => ?_⟩
  rw [step_eq_applyANS oracle method st obj h]
  by_cases hm : (callANS oracle method st obj).mcols = 0
  · rw [applyANS_zero _ _ hm]
    exact ⟨rfl, fun hne => absurd hm hne⟩
  · rw [applyANS_pos _ _ hm]
    exact ⟨rfl, fun _ => rfl⟩

theorem claim2_state_updates_w :
    (step (o0 1) "qr" (initState 1 none) zobj1).Z
      = (initState 1 none).N *ᵥ (callANS (o0 1) "qr" (initState 1 none) zobj1).Y
        + (initState 1 none).Z :=
  ((claim2_state_updates (o0 1) "qr" none).2.2 (initState 1 none) zobj1 rfl).1

/-- Claim C4: if the kernel basis returned at some level has zero columns, that
level's particular solution is still accumulated into Z, the loop stops, and
every suffix of extra objectives leaves the returned Z unchanged. -/
theorem claim4_early_exit {n : ℕ} (oracle : Oracle n) (method : String)
    (b₀ : Option (Bounds n)) (l₁ : List (Objective n)) (obj : Objective n)
    (l₂ : List (Objective n))
    (h0 : (runFrom oracle method (initState n b₀) l₁).halted = false)
    (hm : (callANS oracle method (runFrom oracle method (initState n b₀) l₁) obj).mcols
      = 0) :
    NullSpaceMethod oracle (l₁ ++ obj :: l₂) method b₀ =
        (runFrom oracle method (initState n b₀) l₁).N *ᵥ
            (callANS oracle method (runFrom oracle method (initState n b₀) l₁) obj).Y
          + (runFrom oracle method (initState n b₀) l₁).Z ∧
    NullSpaceMethod oracle (l₁ ++ obj :: l₂) method b₀ =
      NullSpaceMethod oracle (l₁ ++ [obj]) method b₀ := by
  set st := runFrom oracle method (initState n b₀) l₁ with hst
  have hstep : step oracle method st obj =
      ⟨st.m, st.N, st.N *ᵥ (callANS oracle method st obj).Y + st.Z, st.bounds, true⟩ := by
    rw [step_eq_applyANS oracle method st obj h0, applyANS_zero _ _ hm]
  have hrun : ∀ l : List (Objective n),
      NullSpaceMethod oracle (l₁ ++ obj :: l) method b₀ =
        st.N *ᵥ (callANS oracle method st obj).Y + st.Z := by
    intro l
    unfold NullSpaceMethod
    rw [runFrom_append, ← hst, runFrom_cons, hstep, runFrom_halted _ _ _ rfl]
  exact ⟨hrun l₂, (hrun l₂).trans (hrun []).symm⟩

theorem claim4_early_exit_w :
    NullSpaceMethod (oHalt 1) ([] ++ zobj1 :: [zobj1]) "qr" none =
        (runFrom (oHalt 1) "qr" (initState 1 none) []).N *ᵥ
            (callANS (oHalt 1) "qr" (runFrom (oHalt 1) "qr" (initState 1 none) [])
              zobj1).Y
          + (runFrom (oHalt 1) "qr" (initState 1 none) []).Z ∧
    NullSpaceMethod (oHalt 1) ([] ++ zobj1 :: [zobj1]) "qr" none =
      NullSpaceMethod (oHalt 1) ([] ++ [zobj1]) "qr" none :=
  claim4_early_exit (oHalt 1) "qr" none [] zobj1 [zobj1] rfl rfl

/-- Claim C5: the code does not re-center the bounds on Z. At a concrete level
with caller bounds (5, 6) whose particular solution moves Z to the constant 5,
the updated bounds are (0, 1) — not (-Z, 1-Z) = (-5, -4) as the code's own
comment on line 88 prescribes — even though the collaborator contract holds at
this call. -/
theorem claim5_bounds_not_recentered :
    ContractAt o5 "qr" (initState 1 (some pex)) zobj1 ∧
    (step o5 "qr" (initState 1 (some pex)) zobj1).Z = (fun _ => (5 : ℚ)) ∧
    (step o5 "qr" (initState 1 (some pex)) zobj1).bounds
      = some ((0 : Fin 1 → ℚ), (1 : Fin 1 → ℚ)) ∧
    (0 : Fin 1 → ℚ) ≠ -(fun _ => (5 : ℚ)) := by
  have hH : (initState 1 (some pex)).N.transpose * zobj1.H
      * (initState 1 (some pex)).N = 0 := by
    simp [zobj1, Matrix.mul_zero, Matrix.zero_mul]
  have hcall : callANS o5 "qr" (initState 1 (some pex)) zobj1
      = (⟨1, 1, fun _ => 5⟩ : ANSResult 1) := rfl
  refine ⟨⟨?_, ?_⟩, ?_, ?_, ?_⟩
  · rw [hH, Matrix.zero_mul]
  · rw [hH, Matrix.zero_mulVec]
    simp [zobj1, Matrix.zero_mulVec, Matrix.mulVec_zero]
  · rw [step_eq_applyANS _ _ _ _ rfl, hcall, applyANS_pos _ _ (by decide)]
    show (1 : Matrix (Fin 1) (Fin 1) ℚ) *ᵥ (fun _ => (5 : ℚ)) + 0 = fun _ => (5 : ℚ)
    rw [Matrix.one_mulVec, add_zero]
  · rw [step_eq_applyANS _ _ _ _ rfl, hcall, applyANS_pos _ _ (by decide)]
    show nextBounds (initState 1 (some pex)).bounds _ = _
    rw [show (initState 1 (some pex)).bounds = some pex from rfl, nextBounds_some]
  · intro h
    have h1 := congrFun h 0
    norm_num at h1

/-- Claim C6 counterexample: the shape checks accept a list whose second
quadratic form is 3 × 4 and whose second linear term has length 5 while n = 2,
so no dimension error is raised before the first factorization call. -/
theorem claim6_later_mismatch_cex :
    checkDims [(2, 2), (3, 4)] [2, 5] = true ∧
    ((3, 4) : ℕ × ℕ) ≠ (2, 2) ∧ (5 : ℕ) ≠ 2 := by decide

/-- Claim C6 (amended): the validation raises exactly when the lists are empty,
their lengths differ, or the FIRST objective's shapes disagree; shape
mismatches at later indices pass the pre-factorization checks. -/
theorem claim6_first_level_checks :
    (∀ fshapes : List ℕ, checkDims [] fshapes = false) ∧
    (∀ (h0 : ℕ × ℕ) (t : List (ℕ × ℕ)), checkDims (h0 :: t) [] = false) ∧
    (∀ (h0 : ℕ × ℕ) (t : List (ℕ × ℕ)) (f0 : ℕ) (s : List ℕ),
      checkDims (h0 :: t) (f0 :: s) = true ↔
        (t.length = s.length ∧ h0.1 = h0.2 ∧ h0.1 = f0)) := by
  refine ⟨fun fshapes => ?_, fun h0 t => rfl, fun h0 t f0 s => ?_⟩
  · cases fshapes <;> rfl
  · simp [checkDims, and_assoc]

/-- Claim C8: when a level runs and the returned Ni is a basis (its columns
are linearly independent), the column count can only shrink: mcols ≤ m, the
state's dimension never grows, and when Ni has columns the new basis N·Ni has
exactly mcols columns. -/
theorem claim8_nonincreasing {n : ℕ} (oracle : Oracle n) (method : String)
    (st : SolverState n) (obj : Objective n) (h0 : st.halted = false)
    (hli : LinearIndependent ℚ
      (fun j : Fin (callANS oracle method st obj).mcols =>
        fun i : Fin st.m => (callANS oracle method st obj).Ni i j)) :
    (callANS oracle method st obj).mcols ≤ st.m ∧
    (step oracle method st obj).m ≤ st.m ∧
    ((callANS oracle method st obj).mcols ≠ 0 →
      (step oracle method st obj).m = (callANS oracle method st obj).mcols) := by
  have hle : (callANS oracle method st obj).mcols ≤ st.m := by
    have hcard := hli.fintype_card_le_finrank
    simpa [Module.finrank_fin_fun] using hcard
  refine ⟨hle, ?_, ?_⟩
  · rw [step_eq_applyANS oracle method st obj h0]
    by_cases hm : (callANS oracle method st obj).mcols = 0
    · rw [applyANS_zero _ _ hm]
    · rw [applyANS_pos _ _ hm]
      exact hle
  · intro hm
    rw [step_eq_applyANS oracle method st obj h0, applyANS_pos _ _ hm]

theorem claim8_nonincreasing_w :
    (callANS (o0 1) "qr" (initState 1 none) zobj1).mcols ≤ (initState 1 none).m ∧
    (step (o0 1) "qr" (initState 1 none) zobj1).m ≤ (initState 1 none).m ∧
    ((callANS (o0 1) "qr" (initState 1 none) zobj1).mcols ≠ 0 →
      (step (o0 1) "qr" (initState 1 none) zobj1).m
        = (callANS (o0 1) "qr" (initState 1 none) zobj1).mcols) :=
  claim8_nonincreasing (o0 1) "qr" (initState 1 none) zobj1 rfl li_one_col

/-- Claim C9: NullSpaceMethod is a pure function of its inputs — it consults
the collaborator only through its arguments (all updates rebind state), so
pointwise-equal collaborators give identical results on identical inputs. -/
theorem claim9_pure {n : ℕ} (o₁ o₂ : Oracle n)
    (h : ∀ (m : ℕ) (Hm : Matrix (Fin m) (Fin m) ℚ) (rhs : Fin m → ℚ)
      (method : String) (bnd : Option (Bounds n)),
        o₁ m Hm rhs method bnd = o₂ m Hm rhs method bnd)
    (objs : List (Objective n)) (method : String) (b₀ : Option (Bounds n)) :
    NullSpaceMethod o₁ objs method b₀ = NullSpaceMethod o₂ objs method b₀ := by
  have ho : o₁ = o₂ := by
    funext m Hm rhs method bnd
    exact h m Hm rhs method bnd
  rw [ho]

theorem claim9_pure_w :
    NullSpaceMethod (o0 1) [zobj1] "qr" none
      = NullSpaceMethod (o0 1) [zobj1] "qr" none :=
  claim9_pure (o0 1) (o0 1) (fun _ _ _ _ _ => rfl) [zobj1] "qr" none

/-- Claim C10: whenever bounds are present and a level completes with a
nonempty kernel basis, the updated bounds handed to the next level are exactly
(zero vector, all-ones vector) of length n, independent of Z and N, because
val = N·0 is identically zero. -/
theorem claim10_bounds_unit {n : ℕ} (oracle : Oracle n) (method : String)
    (st : SolverState n) (obj : Objective n) (b : Bounds n)
    (h0 : st.halted = false) (hb : st.bounds = some b)
    (hm : (callANS oracle method st obj).mcols ≠ 0) :
    (step oracle method st obj).bounds
      = some ((0 : Fin n → ℚ), (1 : Fin n → ℚ)) := by
  rw [step_eq_applyANS oracle method st obj h0, applyANS_pos _ _ hm]
  show nextBounds st.bounds _ = _
  rw [hb, nextBounds_some]

theorem claim10_bounds_unit_w :
    (step (o0 1) "qr" (initState 1 (some pex)) zobj1).bounds
      = some ((0 : Fin 1 → ℚ), (1 : Fin 1 → ℚ)) :=
  claim10_bounds_unit (o0 1) "qr" (initState 1 (some pex)) zobj1 pex rfl rfl
    (by decide)

/-- Claim C3: assuming the collaborator contract at the processed levels, the
returned Z zeroes the restricted gradient of every processed objective —
N_iᵀ (H_i Z + f_i) = 0 for the restriction N_i in force at level i — and in
particular for a single objective with no bounds, H Z = -f exactly (hence a
fortiori projected onto the row space of H). -/
theorem claim3_gradient_zero {n : ℕ} (oracle : Oracle n) (method : String)
    (objs : List (Objective n)) (b₀ : Option (Bounds n)) :
    (∀ (i : ℕ) (hi : i < objs.length),
      (stateAt oracle method objs b₀ i).halted = false →
      ContractAt oracle method (stateAt oracle method objs b₀ i) objs[i] →
      (stateAt oracle method objs b₀ i).N.transpose *ᵥ
          (objs[i].H *ᵥ NullSpaceMethod oracle objs method b₀ + objs[i].f) = 0) ∧
    (∀ obj : Objective n, objs = [obj] → b₀ = none →
      ContractAt oracle method (initState n none) obj →
      obj.H *ᵥ NullSpaceMethod oracle objs method b₀ = -obj.f) := by
  have main : ∀ (i : ℕ) (hi : i < objs.length),
      (stateAt oracle method objs b₀ i).halted = false →
      ContractAt oracle method (stateAt oracle method objs b₀ i) objs[i] →
      (stateAt oracle method objs b₀ i).N.transpose *ᵥ
          (objs[i].H *ᵥ NullSpaceMethod oracle objs method b₀ + objs[i].f) = 0 := by
    intro i hi h0 hC
    have hest := gradFixed_establish oracle method
      (stateAt oracle method objs b₀ i) objs[i] h0 hC
    have hrun := gradFixed_runFrom _ _ oracle method (objs.drop (i + 1)) _ hest
    have hsplit := runFrom_split oracle method objs i hi (initState n b₀)
    rw [show runFrom oracle method (initState n b₀) (objs.take i)
        = stateAt oracle method objs b₀ i from rfl] at hsplit
    rw [← hsplit] at hrun
    have h1 := hrun.1
    rw [Matrix.mulVec_add, Matrix.mulVec_mulVec]
    exact h1
  refine ⟨main, ?_⟩
  intro obj hobjs hb hC
  subst hobjs
  subst hb
  have h := main 0 (by simp) rfl hC
  have h' : obj.H *ᵥ NullSpaceMethod oracle [obj] method none + obj.f = 0 := by
    have h1 : (1 : Matrix (Fin n) (Fin n) ℚ).transpose *ᵥ
        (obj.H *ᵥ NullSpaceMethod oracle [obj] method none + obj.f) = 0 := h
    rwa [Matrix.transpose_one, Matrix.one_mulVec] at h1
  exact eq_neg_of_add_eq_zero_left h'

theorem claim3_gradient_zero_w :
    zobj1.H *ᵥ NullSpaceMethod (o0 1) [zobj1] "qr" none = -zobj1.f :=
  (claim3_gradient_zero (o0 1) "qr" [zobj1] none).2 zobj1 rfl rfl contract_o0_zobj1

/-- Claim C7 (amended): with no bounds, and a collaborator that on the zero
reduced problem returns the identity kernel matrix and the zero solution,
inserting the zero objective at any position yields the same returned Z as
omitting it. With the caller's bounds present this fails — see the
counterexample. -/
theorem claim7_zero_objective_insert {n : ℕ} (oracle : Oracle n) (method : String)
    (hz : ∀ m : ℕ, oracle m 0 0 method none = ⟨m, 1, 0⟩)
    (l₁ l₂ : List (Objective n)) :
    NullSpaceMethod oracle (l₁ ++ (⟨0, 0⟩ : Objective n) :: l₂) method none =
      NullSpaceMethod oracle (l₁ ++ l₂) method none := by
  cases n with
  | zero =>
    funext x
    exact x.elim0
  | succ k =>
    unfold NullSpaceMethod
    rw [runFrom_append, runFrom_append]
    set st := runFrom oracle method (initState (k + 1) none) l₁ with hst
    have hbn : st.bounds = none := runFrom_bounds_none oracle method l₁ _ rfl
    have hmp : st.halted = false → 0 < st.m :=
      runFrom_m_pos oracle method l₁ _ (fun _ => Nat.succ_pos k)
    cases hh : st.halted with
    | true =>
      rw [runFrom_halted oracle method st hh, runFrom_halted oracle method st hh]
    | false =>
      rw [runFrom_cons, step_zero_obj oracle method st hz hh hbn (hmp hh)]

theorem claim7_zero_objective_insert_w :
    NullSpaceMethod (o0 1) ([] ++ (⟨0, 0⟩ : Objective 1) :: []) "qr" none =
      NullSpaceMethod (o0 1) ([] ++ []) "qr" none :=
  claim7_zero_objective_insert (o0 1) "qr" (fun _ => rfl) [] []

/-- Claim C7 counterexample: with caller bounds present, a collaborator that
satisfies the contract on every call made in both runs and treats the zero
problem exactly as the claim prescribes (zero solution, full kernel) still
returns a different Z when the zero objective is prepended, because the
inserted level rewrites the bounds seen by the next level: Z = (1, 0) with
the insertion, Z = (1, 5) without it. -/
theorem claim7_zero_insert_cex :
    ContractAt ocex "qr" (initState 2 bex) zobj2 ∧
    ContractAt ocex "qr" (initState 2 bex) aobj ∧
    ContractAt ocex "qr" (stateAt ocex "qr" [zobj2, aobj] bex 1) aobj ∧
    (callANS ocex "qr" (initState 2 bex) zobj2).mcols = 2 ∧
    (callANS ocex "qr" (initState 2 bex) zobj2).Y = 0 ∧
    NullSpaceMethod ocex [zobj2, aobj] "qr" bex
      ≠ NullSpaceMethod ocex [aobj] "qr" bex := by
  refine ⟨contract_init_zobj2, contract_init_aobj, ?_, ?_, ?_, ?_⟩
  · rw [ev_state1]
    exact contract_st1_aobj
  · rw [ev_call_zobj2]
  · rw [ev_call_zobj2]
  · rw [ev_runB, ev_runA]
    intro hcontra
    have h1 := congrFun hcontra 1
    norm_num at h1
